import Mathlib

/-!
Shallow embedding of the thunder repository's iterative factor-analysis
engine (`src/python/thunder/factorization/fa.py`) and of the CCA driver's
gramian computation (`src/cca.py`), with theorems checking the
natural-language specification against this embedding.

Floating-point values are modelled as real numbers; the Python value
`-inf` used to initialize `old_ll` is modelled by `⊥ : EReal`, and each
iteration's log-likelihood (a finite float in the model) is coerced into
`EReal` for the convergence comparison, mirroring the IEEE semantics of
`ll - (-inf)` for finite `ll`.  Python exceptions are modelled with
`Except String`; `fit` is modelled in state-passing style
(`model → model × Option String`), the returned model being the object
after the call (unchanged when an exception propagates, since the source
assigns the result fields only after the loop finishes).  The SVD engine
and the distributed matrix abstraction live outside these sources; they
are modelled from the spec where needed, as marked on each definition.
-/

namespace Thunder

/-- The numerical guard constant `SMALL = 1e-12` of `FA.fit`. -/
noncomputable def SMALL : ℝ := 1e-12

/-- The non-convergence exception message raised by the `for`/`else` of `FA.fit`. -/
def ncMsg : String := "FactorAnalysis did not converge. You might want to increase the number of iterations."

/-- The error raised by Python when `transform` operates on unset (`None`) model fields. -/
def noneFieldMsg : String := "unsupported operand type for NoneType"

/-- The EM loop shared by both orientations of `FA.fit` (`fa.py` lines
100-121 and 134-159): run `fuel` remaining iterations with `old_ll : EReal`
(initially `⊥`, i.e. `-inf`) and loop-carried state `st` (the `psi`
estimate).  `step` performs one iteration body, returning the
log-likelihood `ll`, the pair of values the loop exposes when it breaks
(`W` and the current, not-yet-updated `psi`), and the updated state for
the next iteration.  Exhausting the iterations reaches the Python
`for`/`else` branch and raises the non-convergence exception. -/
noncomputable def emFitGo {σ μ : Type} (step : σ → ℝ × μ × σ) (tol : ℝ) :
    ℕ → EReal → σ → Except String (ℝ × μ)
  | 0, _, _ => .error ncMsg
  | fuel + 1, old_ll, st =>
    let r := step st
    if ((r.1 : EReal) - old_ll < ((tol : ℝ) : EReal)) then .ok (r.1, r.2.1)
    else emFitGo step tol fuel ((r.1 : ℝ) : EReal) r.2.2

/-- The loop-carried state (`psi`) seen at the start of iteration `i` of
the EM loop. -/
def traceState {σ μ : Type} (step : σ → ℝ × μ × σ) (init : σ) : ℕ → σ
  | 0 => init
  | i + 1 => (step (traceState step init i)).2.2

/-- The log-likelihood computed by iteration `i` of the EM loop. -/
def traceLL {σ μ : Type} (step : σ → ℝ × μ × σ) (init : σ) (i : ℕ) : ℝ :=
  (step (traceState step init i)).1

/-- Modelled from the spec: `center(1)` of thunder's matrix abstraction
(not part of these sources) — subtract from every entry the mean of its
feature column, the mean being computed over the sample rows. -/
noncomputable def center1 {n p : ℕ} (data : Fin n → Fin p → ℝ) : Fin n → Fin p → ℝ :=
  fun i j => data i j - (∑ i', data i' j) / n

/-- Modelled from the spec: per-feature variance of a row matrix
(`variance()` of the matrix abstraction, numpy population convention),
computed via a distributed reduction. -/
noncomputable def colVarFn {n p : ℕ} (data : Fin n → Fin p → ℝ) (j : Fin p) : ℝ :=
  (∑ i, (data i j - (∑ i', data i' j) / n) ^ 2) / n

/-- Modelled from the spec: `dotDivide` of the matrix abstraction —
per-row elementwise division by a broadcast dense vector. -/
noncomputable def dotDivide {n p : ℕ} (mat : Fin n → Fin p → ℝ) (v : Fin p → ℝ) :
    Fin n → Fin p → ℝ :=
  fun i j => mat i j / v j

/-- The values produced by one row-orientation EM iteration
(`fa.py` lines 101-117). -/
structure RowIter (p k : ℕ) where
  ll : ℝ
  W : Fin k → Fin p → ℝ
  psiNext : Fin p → ℝ

/-- One row-orientation EM iteration body, translated statement by
statement from `fa.py` lines 101-117.  `svdO` is the SVD engine treated
as an oracle: it returns the pair (`svd.s`, `svd.v`) for the matrix
passed to `svd.calc` (the SVD implementation lives outside these
sources). -/
noncomputable def rowIterate {n p k : ℕ}
    (svdO : (Fin n → Fin p → ℝ) → (Fin k → ℝ) × (Fin k → Fin p → ℝ))
    (mat : Fin n → Fin p → ℝ) (variance : Fin p → ℝ) (psi : Fin p → ℝ) : RowIter p k :=
  let sqrt_psi : Fin p → ℝ := fun j => Real.sqrt (psi j) + SMALL
  let scaledmat := dotDivide mat sqrt_psi
  let sv := svdO scaledmat
  let s : Fin k → ℝ := fun l => sv.1 l ^ 2 / n
  let unexp_var : ℝ := (∑ j, colVarFn scaledmat j) - ∑ l, s l
  let W0 : Fin k → Fin p → ℝ := fun l j => Real.sqrt (max (s l - 1) 0) * sv.2 l j
  let W : Fin k → Fin p → ℝ := fun l j => W0 l j * sqrt_psi j
  let llconst : ℝ := p * Real.log (2 * Real.pi) + k
  let ll : ℝ :=
    ((llconst + ∑ l, Real.log (s l)) + (unexp_var + ∑ j, Real.log (psi j))) * (-(n : ℝ) / 2)
  { ll := ll
    W := W
    psiNext := fun j => max (variance j - ∑ l, W l j ^ 2) SMALL }

/-- The row-orientation loop body packaged for `emFitGo`: on `break` the
loop exposes the iteration's `W` and the current (pre-update) `psi`. -/
noncomputable def rowStep {n p k : ℕ}
    (svdO : (Fin n → Fin p → ℝ) → (Fin k → ℝ) × (Fin k → Fin p → ℝ))
    (mat : Fin n → Fin p → ℝ) (variance : Fin p → ℝ) :
    (Fin p → ℝ) → ℝ × ((Fin k → Fin p → ℝ) × (Fin p → ℝ)) × (Fin p → ℝ) :=
  fun psi =>
    let r := rowIterate svdO mat variance psi
    (r.ll, (r.W, psi), r.psiNext)

/-- The `FA` model object, row orientation (`rowFormat = True`): the
stopping hyperparameters and the result fields, `None` until a
successful `fit`.  The factor count `k` and feature count `p` are type
parameters. -/
structure FArow (k p : ℕ) where
  tol : ℝ
  maxIter : ℕ
  comps : Option (Fin k → Fin p → ℝ) := none
  noiseVar : Option (Fin p → ℝ) := none
  loglike : Option ℝ := none

/-- The row-orientation loop body with its per-`fit` inputs filled in as
the source computes them before the loop: `mat = data.center(1)` and
`variance = data.variance()` (`fa.py` lines 94-97). -/
noncomputable def rowStepOf {n p k : ℕ}
    (svdO : (Fin n → Fin p → ℝ) → (Fin k → ℝ) × (Fin k → Fin p → ℝ))
    (data : Fin n → Fin p → ℝ) :
    (Fin p → ℝ) → ℝ × ((Fin k → Fin p → ℝ) × (Fin p → ℝ)) × (Fin p → ℝ) :=
  rowStep svdO (center1 data) (colVarFn data)

/-- Row-orientation `FA.fit` (`fa.py` lines 93-124), in state-passing
style: returns the model object after the call together with the raised
exception message, if any.  On an exception the object is returned
unchanged, because the source assigns `comps`/`noiseVar`/`loglike` only
after the loop exits via `break`.  `psi` starts at the all-ones vector. -/
noncomputable def rowFitSt {n p k : ℕ} (m : FArow k p)
    (svdO : (Fin n → Fin p → ℝ) → (Fin k → ℝ) × (Fin k → Fin p → ℝ))
    (data : Fin n → Fin p → ℝ) : FArow k p × Option String :=
  match emFitGo (rowStepOf svdO data) m.tol m.maxIter ⊥ (fun _ => 1) with
  | .error e => (m, some e)
  | .ok (ll, Wpsi) =>
    ({ m with comps := some Wpsi.1, noiseVar := some Wpsi.2, loglike := some ll }, none)

/-- Row-orientation `FA.transform` (`fa.py` lines 192-196).  Python
raises a `TypeError` when `comps`/`noiseVar` are still `None`; the
fallible field access is modelled with `Except`. -/
noncomputable def rowTransform {n p k : ℕ} (m : FArow k p) (data : Fin n → Fin p → ℝ) :
    Except String (Matrix (Fin n) (Fin k) ℝ) :=
  let mat := center1 data
  match m.comps, m.noiseVar with
  | some comps, some noiseVar =>
    let Wpsi : Fin k → Fin p → ℝ := fun l j => comps l j / noiseVar j
    let cov_z : Matrix (Fin k) (Fin k) ℝ :=
      (1 + Matrix.of (fun a b => ∑ j, Wpsi a j * comps b j))⁻¹
    .ok (Matrix.of mat * Matrix.transpose (Matrix.of Wpsi) * cov_z)
  | _, _ => .error noneFieldMsg

/-- Modelled from the spec: a key-value partitioned distributed
collection of the external runtime, reduced to what the column path
observes — the list of key-value pairs and the partition count.  A
`join` may grow the partition count (modelled additively, matching the
spec's warning that un-coalesced join outputs grow unboundedly), while
`coalesce n` repartitions to at most `n` partitions. -/
structure RDD (β : Type) where
  data : List (ℕ × β)
  parts : ℕ

/-- Modelled from the spec: `mapValues` — a pure per-element value
transformation; keys and partitioning are unchanged. -/
def RDD.mapValues {β γ : Type} (r : RDD β) (f : β → γ) : RDD γ :=
  { data := r.data.map fun kv => (kv.1, f kv.2), parts := r.parts }

/-- Modelled from the spec: the pair list of an inner join on key
equality. -/
def joinData {β γ : Type} (a : List (ℕ × β)) (b : List (ℕ × γ)) : List (ℕ × (β × γ)) :=
  a.flatMap fun kv => (b.filter fun kw => kw.1 = kv.1).map fun kw => (kv.1, (kv.2, kw.2))

/-- Modelled from the spec: `join` — inner join on key equality; the
output partition count may grow. -/
def RDD.join {β γ : Type} (a : RDD β) (b : RDD γ) : RDD (β × γ) :=
  { data := joinData a.data b.data, parts := a.parts + b.parts }

/-- Modelled from the spec: `coalesce n` — repartition to at most `n`
partitions, data unchanged. -/
def RDD.coalesce {β : Type} (r : RDD β) (n : ℕ) : RDD β :=
  { data := r.data, parts := min r.parts n }

/-- Modelled from the spec: `sortByKey` — materialize the key-value
pairs sorted ascending by key. -/
def RDD.sortByKey {β : Type} (r : RDD β) : RDD β :=
  { data := r.data.insertionSort fun x y => x.1 ≤ y.1, parts := r.parts }

/-- Modelled from the spec: `values().collect()` — the list of values. -/
def RDD.valuesList {β : Type} (r : RDD β) : List β :=
  r.data.map Prod.snd

/-- The mean of a list of reals (helper for numpy `var`). -/
noncomputable def listMean (v : List ℝ) : ℝ := v.sum / v.length

/-- numpy `var` on a one-dimensional array: population variance. -/
noncomputable def npVar (v : List ℝ) : ℝ :=
  ((v.map fun x => (x - listMean v) ^ 2).sum) / v.length

/-- The distributed matrix of the column-orientation path: a key-value
collection of feature rows plus the stored column count (`ncols` is the
sample count in this orientation). -/
structure ColMat where
  rdd : RDD (List ℝ)
  ncols : ℕ

/-- The distributed noise-variance result of the column path: one scalar
per feature key, wrapped by the matrix constructor with `ncols = 1`. -/
structure ColVec where
  rdd : RDD ℝ
  ncols : ℕ

/-- Modelled from the spec: `center(0)` of the matrix abstraction in the
column orientation — each feature key's vector minus the mean of that
vector (the mean over samples). -/
noncomputable def centerCol (d : ColMat) : ColMat :=
  { rdd := d.rdd.mapValues fun v => v.map fun x => x - listMean v, ncols := d.ncols }

/-- The values produced by one column-orientation EM iteration
(`fa.py` lines 135-155).  `scaledmat` and `Wpre` expose the
intermediates whose partition handling the spec discusses (`Wpre` is
`svd.u.dotTimes(...)`, the left operand of the loadings join). -/
structure ColIter where
  ll : ℝ
  W : RDD (List ℝ)
  psiNext : RDD ℝ
  scaledmat : ColMat
  Wpre : RDD (List ℝ)

/-- One column-orientation EM iteration body, translated statement by
statement from `fa.py` lines 135-155.  `svdO` is the SVD engine treated
as an oracle returning (`svd.u`, `svd.s`); `dotTimes` (per-row
elementwise multiplication by a broadcast dense vector) is inlined, as
modelled from the spec. -/
noncomputable def colIterate (svdO : ColMat → RDD (List ℝ) × List ℝ)
    (mat : ColMat) (variance : RDD ℝ) (llconst : ℝ) (nsamples : ℕ)
    (numPartMat numPartPsi : ℕ) (psi : RDD ℝ) : ColIter :=
  let sqrt_psi := psi.mapValues fun x => Real.sqrt x + SMALL
  let scaledmat : ColMat :=
    { rdd := ((mat.rdd.join sqrt_psi).coalesce numPartMat).mapValues fun x => x.1.map (· / x.2)
      ncols := mat.ncols }
  let sv := svdO scaledmat
  let s : List ℝ := sv.2.map fun x => x ^ 2 / nsamples
  let unexp_var : ℝ := (scaledmat.rdd.mapValues npVar).valuesList.sum - s.sum
  let Wpre : RDD (List ℝ) :=
    sv.1.mapValues fun v => List.zipWith (· * ·) v (s.map fun x => Real.sqrt (max (x - 1) 0))
  let W : RDD (List ℝ) :=
    ((Wpre.join sqrt_psi).coalesce Wpre.parts).mapValues fun x => x.1.map (· * x.2)
  let ll : ℝ :=
    ((llconst + (s.map Real.log).sum) + (unexp_var + (psi.mapValues Real.log).valuesList.sum))
      * (-(nsamples : ℝ) / 2)
  let psiNext : RDD ℝ :=
    ((variance.join (W.mapValues fun x => ((x.map fun y => y ^ 2).sum))).coalesce numPartPsi)
      |>.mapValues fun x => max (x.1 - x.2) SMALL
  { ll := ll, W := W, psiNext := psiNext, scaledmat := scaledmat, Wpre := Wpre }

/-- The column-orientation loop body packaged for `emFitGo`. -/
noncomputable def colStep (svdO : ColMat → RDD (List ℝ) × List ℝ)
    (mat : ColMat) (variance : RDD ℝ) (llconst : ℝ) (nsamples : ℕ)
    (numPartMat numPartPsi : ℕ) :
    RDD ℝ → ℝ × (RDD (List ℝ) × RDD ℝ) × RDD ℝ :=
  fun psi =>
    let r := colIterate svdO mat variance llconst nsamples numPartMat numPartPsi psi
    (r.ll, (r.W, psi), r.psiNext)

/-- The `FA` model object, column orientation (`rowFormat = False`). -/
structure FAcol where
  k : ℕ
  tol : ℝ
  maxIter : ℕ
  comps : Option ColMat := none
  noiseVar : Option ColVec := none
  loglike : Option ℝ := none

/-- The per-feature variance collection computed before the
column-orientation loop: `variance = mat.rdd.mapValues(var)`
(`fa.py` line 129). -/
noncomputable def colVarianceOf (data : ColMat) : RDD ℝ :=
  (centerCol data).rdd.mapValues npVar

/-- The initial noise-variance collection of the column-orientation
loop: `psi = variance.mapValues(lambda x: 1.)` (`fa.py` line 130). -/
noncomputable def colPsi0 (data : ColMat) : RDD ℝ :=
  (colVarianceOf data).mapValues fun _ => (1 : ℝ)

/-- The log-likelihood constant of the column-orientation loop:
`llconst = n_features * log(2 * pi) + k` (`fa.py` line 128). -/
noncomputable def colLLconst (kk : ℕ) (data : ColMat) : ℝ :=
  ((centerCol data).rdd.data.length : ℝ) * Real.log (2 * Real.pi) + kk

/-- The column-orientation loop body with its per-`fit` inputs filled in
as the source computes them before the loop (`fa.py` lines 126-133):
`mat = data.center(0)`, the variance collection, `llconst`,
`n_samples = mat.ncols`, and the two captured partition counts
`numPartMat` and `numPartPsi`. -/
noncomputable def colStepOf (kk : ℕ) (svdO : ColMat → RDD (List ℝ) × List ℝ)
    (data : ColMat) : RDD ℝ → ℝ × (RDD (List ℝ) × RDD ℝ) × RDD ℝ :=
  colStep svdO (centerCol data) (colVarianceOf data) (colLLconst kk data)
    (centerCol data).ncols (centerCol data).rdd.parts (colPsi0 data).parts

/-- Column-orientation `FA.fit` (`fa.py` lines 126-164), in
state-passing style: on an exception the object is returned unchanged.
After a `break`, `comps` is the `W` list sorted by key wrapped with
`ncols = k`, and `noiseVar` is the current `psi` sorted by key wrapped
with `ncols = 1`. -/
noncomputable def colFitSt (m : FAcol) (svdO : ColMat → RDD (List ℝ) × List ℝ)
    (data : ColMat) : FAcol × Option String :=
  match emFitGo (colStepOf m.k svdO data) m.tol m.maxIter ⊥ (colPsi0 data) with
  | .error e => (m, some e)
  | .ok (ll, Wpsi) =>
    ({ m with comps := some { rdd := Wpsi.1.sortByKey, ncols := m.k }
              noiseVar := some { rdd := Wpsi.2.sortByKey, ncols := 1 }
              loglike := some ll }, none)

/-- An outer product of two value lists, read as a dense matrix with the
entries beyond each list's length defaulting to `0` (helper for the
column-orientation `transform`). -/
noncomputable def listOuterM (a b : ℕ) (v w : List ℝ) : Matrix (Fin a) (Fin b) ℝ :=
  Matrix.of fun i j => v.getD i 0 * w.getD j 0

/-- Column-orientation `FA.transform` (`fa.py` lines 198-205).  Python
raises an `AttributeError` on `self.comps.rdd` when the model is
unfitted; the fallible field access is modelled with `Except`. -/
noncomputable def colTransform (m : FAcol) (data : ColMat) :
    Except String (Matrix (Fin m.k) (Fin data.ncols) ℝ) :=
  let mat := centerCol data
  match m.comps, m.noiseVar with
  | some comps, some noiseVar =>
    let Wpsi : List (ℕ × List ℝ) :=
      (joinData comps.rdd.data noiseVar.rdd.data).map fun kv => (kv.1, kv.2.1.map (· / kv.2.2))
    let tmp : Matrix (Fin m.k) (Fin m.k) ℝ :=
      ((joinData comps.rdd.data Wpsi).map fun kv => listOuterM m.k m.k kv.2.1 kv.2.2).sum
    let cov_z := (1 + tmp)⁻¹
    let big : Matrix (Fin m.k) (Fin data.ncols) ℝ :=
      ((joinData Wpsi mat.rdd.data).map fun kv => listOuterM m.k data.ncols kv.2.1 kv.2.2).sum
    .ok (cov_z * big)
  | _, _ => .error noneFieldMsg

/-- The outer product `outer(x, x)` of a sample row, as accumulated by
the driver's gramian reduction (`cca.py` lines 85 and 88). -/
noncomputable def outerSelf {m : ℕ} (x : Fin m → ℝ) : Matrix (Fin m) (Fin m) ℝ :=
  Matrix.of fun i j => x i * x j

/-- Elementwise division of a matrix by a scalar, as numpy performs for
`matrix / (n - 1)`. -/
noncomputable def matScalarDiv {a b : ℕ} (M : Matrix (Fin a) (Fin b) ℝ) (c : ℝ) :
    Matrix (Fin a) (Fin b) ℝ :=
  Matrix.of fun i j => M i j / c

/-- The driver value `cov1` (`cca.py` line 85): the outer-product
reduction over dataset 1's preprocessed rows, divided by `n1 - 1`. -/
noncomputable def ccaCov1 {m : ℕ} (data1sub : List (Fin m → ℝ)) (n1 : ℕ) :
    Matrix (Fin m) (Fin m) ℝ :=
  matScalarDiv ((data1sub.map fun x => outerSelf x).sum) ((n1 : ℝ) - 1)

/-- The driver value `cov2` (`cca.py` line 88), translated literally: the
outer-product reduction over dataset 2's centered rows — divided by
`n1 - 1`, the sample count of dataset 1. -/
noncomputable def ccaCov2 {m : ℕ} (data2sub : List (Fin m → ℝ)) (n1 : ℕ) :
    Matrix (Fin m) (Fin m) ℝ :=
  matScalarDiv ((data2sub.map fun x => outerSelf x).sum) ((n1 : ℝ) - 1)

/-- Modelled from the spec: the covariance of a dataset per the spec's
words — the distributed outer-product reduction over that dataset's
rows divided by `n - 1` where `n` is that same dataset's number of
samples (its row count). -/
noncomputable def ccaCovSpec {m : ℕ} (dsub : List (Fin m → ℝ)) :
    Matrix (Fin m) (Fin m) ℝ :=
  matScalarDiv ((dsub.map fun x => outerSelf x).sum) ((dsub.length : ℝ) - 1)

section Lemmas

lemma emFitGo_zero {σ μ : Type} (step : σ → ℝ × μ × σ) (tol : ℝ) (old : EReal) (st : σ) :
    emFitGo step tol 0 old st = .error ncMsg := rfl

lemma emFitGo_succ {σ μ : Type} (step : σ → ℝ × μ × σ) (tol : ℝ) (fuel : ℕ)
    (old : EReal) (st : σ) :
    emFitGo step tol (fuel + 1) old st =
      if (((step st).1 : ℝ) : EReal) - old < ((tol : ℝ) : EReal)
      then Except.ok ((step st).1, (step st).2.1)
      else emFitGo step tol fuel (((step st).1 : ℝ) : EReal) (step st).2.2 := rfl

lemma check_coe (a b t : ℝ) :
    (((a : ℝ) : EReal) - ((b : ℝ) : EReal) < ((t : ℝ) : EReal)) ↔ a - b < t := by
  rw [← EReal.coe_sub]
  exact EReal.coe_lt_coe_iff

lemma check_bot (a t : ℝ) : ¬(((a : ℝ) : EReal) - (⊥ : EReal) < ((t : ℝ) : EReal)) := by
  rw [EReal.coe_sub_bot]
  exact not_top_lt

lemma emFitGo_succ_bot {σ μ : Type} (step : σ → ℝ × μ × σ) (tol : ℝ) (fuel : ℕ) (st : σ) :
    emFitGo step tol (fuel + 1) ⊥ st =
      emFitGo step tol fuel (((step st).1 : ℝ) : EReal) (step st).2.2 := by
  rw [emFitGo_succ, if_neg (check_bot _ _)]

lemma traceState_shift {σ μ : Type} (step : σ → ℝ × μ × σ) (init : σ) (i : ℕ) :
    traceState step (step init).2.2 i = traceState step init (i + 1) := by
  induction i with
  | zero => rfl
  | succ j ih => simp only [traceState, ih]

lemma traceLL_shift {σ μ : Type} (step : σ → ℝ × μ × σ) (init : σ) (i : ℕ) :
    traceLL step (step init).2.2 i = traceLL step init (i + 1) := by
  simp only [traceLL, traceState_shift]

lemma emFitGo_error_of_not_conv {σ μ : Type} (step : σ → ℝ × μ × σ) (tol : ℝ) :
    ∀ (fuel : ℕ) (st : σ) (old : EReal),
      (∀ i : ℕ, i + 1 < fuel → ¬(traceLL step st (i + 1) - traceLL step st i < tol)) →
      ¬((((traceLL step st 0 : ℝ) : EReal)) - old < ((tol : ℝ) : EReal)) →
      emFitGo step tol fuel old st = .error ncMsg := by
  intro fuel
  induction fuel with
  | zero => intro st old _ _; rfl
  | succ f ih =>
    intro st old H1 H2
    rw [emFitGo_succ,
      if_neg (show ¬((((step st).1 : ℝ) : EReal) - old < ((tol : ℝ) : EReal)) from H2)]
    cases f with
    | zero => rfl
    | succ g =>
      apply ih
      · intro i hi
        rw [traceLL_shift, traceLL_shift]
        exact H1 (i + 1) (by omega)
      · rw [check_coe, traceLL_shift]
        exact H1 0 (by omega)

lemma emFitGo_ok_prop {σ μ : Type} (step : σ → ℝ × μ × σ) (tol : ℝ)
    (P : σ → Prop) (Q : ℝ × μ → Prop)
    (hstep : ∀ st, P st → P (step st).2.2)
    (hbreak : ∀ st, P st → Q ((step st).1, (step st).2.1)) :
    ∀ (fuel : ℕ) (old : EReal) (st : σ) (r : ℝ × μ),
      P st → emFitGo step tol fuel old st = .ok r → Q r := by
  intro fuel
  induction fuel with
  | zero =>
    intro old st r _ h
    exact absurd h (by rw [emFitGo_zero]; exact fun hh => Except.noConfusion hh)
  | succ f ih =>
    intro old st r hP h
    rw [emFitGo_succ] at h
    by_cases hc : (((step st).1 : ℝ) : EReal) - old < ((tol : ℝ) : EReal)
    · rw [if_pos hc] at h
      cases h
      exact hbreak st hP
    · rw [if_neg hc] at h
      exact ih _ _ _ (hstep st hP) h

lemma sortByKey_sorted {β : Type} (r : RDD β) :
    List.Sorted (fun x y : ℕ × β => x.1 ≤ y.1) r.sortByKey.data := by
  haveI : IsTotal (ℕ × β) (fun x y : ℕ × β => x.1 ≤ y.1) := ⟨fun a b => Nat.le_total a.1 b.1⟩
  haveI : IsTrans (ℕ × β) (fun x y : ℕ × β => x.1 ≤ y.1) := ⟨fun _ _ _ => Nat.le_trans⟩
  exact List.sorted_insertionSort _ _

lemma mem_sortByKey {β : Type} {r : RDD β} {x : ℕ × β} :
    x ∈ r.sortByKey.data ↔ x ∈ r.data :=
  List.mem_insertionSort _

lemma mem_mapValues {β γ : Type} {r : RDD β} {f : β → γ} {kv : ℕ × γ}
    (h : kv ∈ (r.mapValues f).data) : ∃ x ∈ r.data, kv = (x.1, f x.2) := by
  simp only [RDD.mapValues, List.mem_map] at h
  obtain ⟨x, hx, rfl⟩ := h
  exact ⟨x, hx, rfl⟩

lemma mem_joinData {β γ : Type} {a : List (ℕ × β)} {b : List (ℕ × γ)} {kv : ℕ × (β × γ)}
    (h : kv ∈ joinData a b) :
    ∃ v ∈ a, ∃ w ∈ b, kv = (v.1, (v.2, w.2)) := by
  simp only [joinData, List.mem_flatMap, List.mem_map, List.mem_filter] at h
  obtain ⟨v, hv, w, ⟨hw, _⟩, rfl⟩ := h
  exact ⟨v, hv, w, hw, rfl⟩

end Lemmas

/-- C1: In every iteration of the EM loop of `fit` — `emFitGo`, the loop
underlying both orientations `rowFitSt` and `colFitSt` — the loop stops
(breaks out as converged) exactly when the check `ll - old_ll < tol`
holds: each iteration breaks precisely when the check holds (first
conjunct); against a finite previous log-likelihood the check is
exactly the one-sided comparison `ll - old_ll < tol` on the improvement
(second conjunct); hence any change smaller than `tol`, including a
strict decrease `ll < old_ll` of the log-likelihood, satisfies the
stopping criterion (third conjunct). -/
theorem fa_convergence_check_one_sided {σ μ : Type} (step : σ → ℝ × μ × σ)
    (tol ll o : ℝ) (htol : 0 < tol) (hdec : ll < o) :
    (∀ (fuel : ℕ) (old : EReal) (st : σ),
      emFitGo step tol (fuel + 1) old st =
        if (((step st).1 : ℝ) : EReal) - old < ((tol : ℝ) : EReal)
        then Except.ok ((step st).1, (step st).2.1)
        else emFitGo step tol fuel (((step st).1 : ℝ) : EReal) (step st).2.2)
    ∧ ((((ll : ℝ) : EReal) - ((o : ℝ) : EReal) < ((tol : ℝ) : EReal)) ↔ ll - o < tol)
    ∧ (((ll : ℝ) : EReal) - ((o : ℝ) : EReal) < ((tol : ℝ) : EReal)) := by
  refine ⟨fun fuel old st => emFitGo_succ step tol fuel old st, check_coe ll o tol, ?_⟩
  rw [check_coe]
  have : ll - o < 0 := by linarith
  linarith

/-- Witness for C1 at a concrete input: the stopping criterion with
`tol = 1` is satisfied by the strictly decreasing step from
log-likelihood `5` to log-likelihood `0`. -/
theorem fa_convergence_check_one_sided_witness :
    (((0 : ℝ) : EReal) - ((5 : ℝ) : EReal) < (((1 : ℝ) : ℝ) : EReal)) :=
  (fa_convergence_check_one_sided (σ := Unit) (μ := Unit) (fun _ => (0, (), ()))
    1 0 5 (by norm_num) (by norm_num)).2.2

/-- C2: if the EM loop of `fit` runs `maxIter` iterations without the
stopping criterion `ll - old_ll < tol` ever holding (at iteration `0`
it never holds, `old_ll` being `-inf`; at iteration `i + 1` it is the
comparison of consecutive trace log-likelihoods), then `fit` raises the
non-convergence exception and no partial model is produced: in both
orientations the returned model object is exactly the object from
before the call, its `comps`, `noiseVar` and `loglike` fields
untouched. -/
theorem fa_nonconvergence_raises_and_preserves_model :
    (∀ (n p k : ℕ) (m : FArow k p)
      (svdO : (Fin n → Fin p → ℝ) → (Fin k → ℝ) × (Fin k → Fin p → ℝ))
      (data : Fin n → Fin p → ℝ),
      (∀ i : ℕ, i + 1 < m.maxIter →
        ¬(traceLL (rowStepOf svdO data) (fun _ => 1) (i + 1)
            - traceLL (rowStepOf svdO data) (fun _ => 1) i < m.tol)) →
      rowFitSt m svdO data = (m, some ncMsg))
    ∧ (∀ (m : FAcol) (svdO : ColMat → RDD (List ℝ) × List ℝ) (data : ColMat),
      (∀ i : ℕ, i + 1 < m.maxIter →
        ¬(traceLL (colStepOf m.k svdO data) (colPsi0 data) (i + 1)
            - traceLL (colStepOf m.k svdO data) (colPsi0 data) i < m.tol)) →
      colFitSt m svdO data = (m, some ncMsg)) := by
  constructor
  · intro n p k m svdO data H
    unfold rowFitSt
    rw [emFitGo_error_of_not_conv (rowStepOf svdO data) m.tol m.maxIter (fun _ => 1) ⊥ H
      (check_bot _ _)]
  · intro m svdO data H
    unfold colFitSt
    rw [emFitGo_error_of_not_conv (colStepOf m.k svdO data) m.tol m.maxIter (colPsi0 data) ⊥ H
      (check_bot _ _)]

/-- Witness for C2 at concrete inputs with `maxIter = 1` (so the
never-converging hypothesis holds vacuously beyond the automatic first
iteration): both fits return the exception and the unchanged model. -/
theorem fa_nonconvergence_raises_and_preserves_model_witness :
    rowFitSt (n := 0) (p := 0) (k := 0) ⟨1, 1, none, none, none⟩
        (fun _ => (fun _ => 0, fun _ _ => 0)) (fun _ _ => 0)
      = (⟨1, 1, none, none, none⟩, some ncMsg)
    ∧ colFitSt ⟨0, 1, 1, none, none, none⟩ (fun _ => (⟨[], 0⟩, [])) ⟨⟨[], 1⟩, 3⟩
      = (⟨0, 1, 1, none, none, none⟩, some ncMsg) := by
  constructor
  · exact fa_nonconvergence_raises_and_preserves_model.1 0 0 0 _ _ _
      (fun i hi => absurd hi (show ¬(i + 1 < 1) by omega))
  · exact fa_nonconvergence_raises_and_preserves_model.2 _ _ _
      (fun i hi => absurd hi (show ¬(i + 1 < 1) by omega))

/-- C9: the convergence check can never be satisfied on the first EM
iteration, because `old_ll` starts at `-inf` (first conjunct: for every
finite log-likelihood and every tolerance, `ll - (-inf)` is `+inf`,
never below `tol`); consequently `fit` with `maxIter = 1` always raises
the non-convergence error, for every input data, tolerance and
orientation. -/
theorem fa_first_iteration_never_converges :
    (∀ ll tol : ℝ, ¬(((ll : ℝ) : EReal) - (⊥ : EReal) < ((tol : ℝ) : EReal)))
    ∧ (∀ (n p k : ℕ) (m : FArow k p)
        (svdO : (Fin n → Fin p → ℝ) → (Fin k → ℝ) × (Fin k → Fin p → ℝ))
        (data : Fin n → Fin p → ℝ), m.maxIter = 1 →
        rowFitSt m svdO data = (m, some ncMsg))
    ∧ (∀ (m : FAcol) (svdO : ColMat → RDD (List ℝ) × List ℝ) (data : ColMat),
        m.maxIter = 1 → colFitSt m svdO data = (m, some ncMsg)) := by
  refine ⟨check_bot, ?_, ?_⟩
  · intro n p k m svdO data hmax
    unfold rowFitSt
    rw [hmax, emFitGo_succ_bot, emFitGo_zero]
  · intro m svdO data hmax
    unfold colFitSt
    rw [hmax, emFitGo_succ_bot, emFitGo_zero]

/-- Witness for C9 at concrete inputs with `maxIter = 1`: both fits
raise on arbitrary data. -/
theorem fa_first_iteration_never_converges_witness :
    rowFitSt (n := 2) (p := 1) (k := 1) ⟨1 / 100, 1, none, none, none⟩
        (fun _ => (fun _ => 3, fun _ _ => 2)) (fun _ _ => 7)
      = (⟨1 / 100, 1, none, none, none⟩, some ncMsg)
    ∧ colFitSt ⟨2, 1 / 100, 1, none, none, none⟩
        (fun _ => (⟨[(0, [1, 2])], 1⟩, [5, 4])) ⟨⟨[(0, [1, 2, 3])], 1⟩, 3⟩
      = (⟨2, 1 / 100, 1, none, none, none⟩, some ncMsg) := by
  constructor
  · exact fa_first_iteration_never_converges.2.1 2 1 1 _ _ _ rfl
  · exact fa_first_iteration_never_converges.2.2 _ _ _ rfl

/-- C3: in each row-orientation EM iteration, with
`sqrt_psi = sqrt(psi) + 1e-12` and `s` the vector of squared raw
singular values of the rescaled matrix `mat.dotDivide(sqrt_psi)`
divided by `n_samples`, the loadings are
`W = sqrt(max(s - 1, 0))` broadcast against the right singular vectors
`v`, then multiplied elementwise by `sqrt_psi`. -/
theorem fa_row_loadings_formula {n p k : ℕ}
    (svdO : (Fin n → Fin p → ℝ) → (Fin k → ℝ) × (Fin k → Fin p → ℝ))
    (mat : Fin n → Fin p → ℝ) (variance psi : Fin p → ℝ) :
    (rowIterate svdO mat variance psi).W = fun l j =>
      Real.sqrt
          (max ((svdO (dotDivide mat fun j2 => Real.sqrt (psi j2) + 1e-12)).1 l ^ 2
                  / (n : ℝ) - 1) 0)
        * (svdO (dotDivide mat fun j2 => Real.sqrt (psi j2) + 1e-12)).2 l j
        * (Real.sqrt (psi j) + 1e-12) := by
  funext l j
  rfl

/-- C4: in each row-orientation EM iteration, the log-likelihood equals
`-n_samples / 2` times the sum of `n_features * log(2 * pi)`, `k`, the
sum of `log(s)` over the `k` rescaled singular values, `unexp_var`, and
the sum of `log(psi)` over features, where `unexp_var` is the total
variance of the rescaled matrix minus the sum of `s`. -/
theorem fa_row_loglike_formula {n p k : ℕ}
    (svdO : (Fin n → Fin p → ℝ) → (Fin k → ℝ) × (Fin k → Fin p → ℝ))
    (mat : Fin n → Fin p → ℝ) (variance psi : Fin p → ℝ) :
    (rowIterate svdO mat variance psi).ll =
      -(n : ℝ) / 2 *
        ((p : ℝ) * Real.log (2 * Real.pi) + (k : ℝ)
          + (∑ l, Real.log
              ((svdO (dotDivide mat fun j => Real.sqrt (psi j) + 1e-12)).1 l ^ 2 / (n : ℝ)))
          + ((∑ j, colVarFn (dotDivide mat fun j => Real.sqrt (psi j) + 1e-12) j)
              - ∑ l, (svdO (dotDivide mat fun j => Real.sqrt (psi j) + 1e-12)).1 l ^ 2 / (n : ℝ))
          + ∑ j, Real.log (psi j)) := by
  have h : (rowIterate svdO mat variance psi).ll =
      ((((p : ℝ) * Real.log (2 * Real.pi) + (k : ℝ))
          + ∑ l, Real.log
              ((svdO (dotDivide mat fun j => Real.sqrt (psi j) + 1e-12)).1 l ^ 2 / (n : ℝ)))
        + (((∑ j, colVarFn (dotDivide mat fun j => Real.sqrt (psi j) + 1e-12) j)
              - ∑ l, (svdO (dotDivide mat fun j => Real.sqrt (psi j) + 1e-12)).1 l ^ 2 / (n : ℝ))
            + ∑ j, Real.log (psi j))) * (-(n : ℝ) / 2) := rfl
  rw [h]
  ring

section ClampLemmas

lemma rowPsiNext_ge {n p k : ℕ}
    (svdO : (Fin n → Fin p → ℝ) → (Fin k → ℝ) × (Fin k → Fin p → ℝ))
    (mat : Fin n → Fin p → ℝ) (variance psi : Fin p → ℝ) (j : Fin p) :
    SMALL ≤ (rowIterate svdO mat variance psi).psiNext j :=
  le_max_right _ _

lemma colPsiNext_ge (svdO : ColMat → RDD (List ℝ) × List ℝ) (mat : ColMat)
    (variance : RDD ℝ) (llconst : ℝ) (nsamples numPartMat numPartPsi : ℕ) (psi : RDD ℝ) :
    ∀ kv ∈ (colIterate svdO mat variance llconst nsamples
        numPartMat numPartPsi psi).psiNext.data, SMALL ≤ kv.2 := by
  intro kv hkv
  obtain ⟨x, _, rfl⟩ := mem_mapValues hkv
  exact le_max_right _ _

lemma colPsi0_ge (data : ColMat) : ∀ kv ∈ (colPsi0 data).data, SMALL ≤ kv.2 := by
  intro kv hkv
  obtain ⟨x, _, rfl⟩ := mem_mapValues hkv
  rw [show SMALL = (1e-12 : ℝ) from rfl]
  norm_num

end ClampLemmas

/-- C5: in both orientations, the per-iteration noise-variance update is
`psi = max(feature_variance - sum of W squared over components, SMALL)`
with `SMALL = 1e-12` (first two conjuncts: the row update formula, and
the guarantee that every updated entry is at least `1e-12`, for both
orientations), and therefore in the fitted model's `noiseVar` every
entry is at least `1e-12` (last two conjuncts): near-zero noise
variance is clamped rather than surfaced as an error. -/
theorem fa_noise_variance_clamped :
    (∀ (n p k : ℕ) (svdO : (Fin n → Fin p → ℝ) → (Fin k → ℝ) × (Fin k → Fin p → ℝ))
        (mat : Fin n → Fin p → ℝ) (variance psi : Fin p → ℝ) (j : Fin p),
        (rowIterate svdO mat variance psi).psiNext j
            = max (variance j - ∑ l, (rowIterate svdO mat variance psi).W l j ^ 2) (1e-12 : ℝ)
          ∧ (1e-12 : ℝ) ≤ (rowIterate svdO mat variance psi).psiNext j)
    ∧ (∀ (svdO : ColMat → RDD (List ℝ) × List ℝ) (mat : ColMat) (variance : RDD ℝ)
        (llconst : ℝ) (nsamples numPartMat numPartPsi : ℕ) (psi : RDD ℝ),
        ∀ kv ∈ (colIterate svdO mat variance llconst nsamples
            numPartMat numPartPsi psi).psiNext.data, (1e-12 : ℝ) ≤ kv.2)
    ∧ (∀ (n p k : ℕ) (m : FArow k p)
        (svdO : (Fin n → Fin p → ℝ) → (Fin k → ℝ) × (Fin k → Fin p → ℝ))
        (data : Fin n → Fin p → ℝ) (ψ : Fin p → ℝ),
        (rowFitSt m svdO data).2 = none →
        (rowFitSt m svdO data).1.noiseVar = some ψ →
        ∀ j, (1e-12 : ℝ) ≤ ψ j)
    ∧ (∀ (m : FAcol) (svdO : ColMat → RDD (List ℝ) × List ℝ) (data : ColMat) (nv : ColVec),
        (colFitSt m svdO data).2 = none →
        (colFitSt m svdO data).1.noiseVar = some nv →
        ∀ kv ∈ nv.rdd.data, (1e-12 : ℝ) ≤ kv.2) := by
  refine ⟨fun n p k svdO mat variance psi j => ⟨rfl, rowPsiNext_ge svdO mat variance psi j⟩,
    colPsiNext_ge, ?_, ?_⟩
  · intro n p k m svdO data ψ hok hnv j
    unfold rowFitSt at hok hnv
    cases hE : emFitGo (rowStepOf svdO data) m.tol m.maxIter ⊥ (fun _ => 1) with
    | error e => rw [hE] at hok; exact absurd hok (by simp)
    | ok v =>
      rw [hE] at hnv
      obtain ⟨ll, Wpsi⟩ := v
      simp only [Option.some.injEq] at hnv
      have hQ := emFitGo_ok_prop (rowStepOf svdO data) m.tol
        (fun st => ∀ j2, SMALL ≤ st j2) (fun r => ∀ j2, SMALL ≤ r.2.2 j2)
        (fun st _ j2 => rowPsiNext_ge svdO (center1 data) (colVarFn data) st j2)
        (fun st hP => hP)
        m.maxIter ⊥ (fun _ => 1) (ll, Wpsi)
        (fun _ => by rw [show SMALL = (1e-12 : ℝ) from rfl]; norm_num) hE
      rw [← hnv]
      exact hQ j
  · intro m svdO data nv hok hnv kv hkv
    unfold colFitSt at hok hnv
    cases hE : emFitGo (colStepOf m.k svdO data) m.tol m.maxIter ⊥ (colPsi0 data) with
    | error e => rw [hE] at hok; exact absurd hok (by simp)
    | ok v =>
      rw [hE] at hnv
      obtain ⟨ll, Wpsi⟩ := v
      simp only [Option.some.injEq] at hnv
      have hQ := emFitGo_ok_prop (colStepOf m.k svdO data) m.tol
        (fun st => ∀ kv2 ∈ st.data, SMALL ≤ kv2.2)
        (fun r => ∀ kv2 ∈ r.2.2.data, SMALL ≤ kv2.2)
        (fun st _ => colPsiNext_ge svdO (centerCol data) (colVarianceOf data)
          (colLLconst m.k data) (centerCol data).ncols (centerCol data).rdd.parts
          (colPsi0 data).parts st)
        (fun st hP => hP)
        m.maxIter ⊥ (colPsi0 data) (ll, Wpsi) (colPsi0_ge data) hE
      rw [← hnv] at hkv
      exact hQ kv (mem_sortByKey.1 hkv)

section ConcreteFits

/-- If the loop body fixes the state, the loop with two iterations
breaks at the second: the log-likelihood repeats, so its improvement is
`0 < tol`. -/
lemma emFitGo_two_fixed {σ μ : Type} (step : σ → ℝ × μ × σ) (tol : ℝ) (st : σ)
    (hfix : (step st).2.2 = st) (htol : 0 < tol) :
    emFitGo step tol 2 ⊥ st = Except.ok ((step st).1, (step st).2.1) := by
  have e1 : emFitGo step tol 2 ⊥ st
      = emFitGo step tol 1 (((step st).1 : ℝ) : EReal) (step st).2.2 :=
    emFitGo_succ_bot step tol 1 st
  rw [e1, hfix]
  have e2 : emFitGo step tol 1 (((step st).1 : ℝ) : EReal) st
      = if (((step st).1 : ℝ) : EReal) - (((step st).1 : ℝ) : EReal) < ((tol : ℝ) : EReal)
        then Except.ok ((step st).1, (step st).2.1)
        else emFitGo step tol 0 (((step st).1 : ℝ) : EReal) (step st).2.2 :=
    emFitGo_succ step tol 0 _ st
  rw [e2, if_pos ((check_coe _ _ _).mpr (by rw [sub_self]; exact htol))]

/-- A concrete row-orientation model: `k = 0`, one feature, `tol = 1`,
`maxIter = 2`. -/
noncomputable def mRowE : FArow 0 1 := ⟨1, 2, none, none, none⟩

/-- A concrete trivial SVD oracle for `k = 0`. -/
noncomputable def svdORowE : (Fin 2 → Fin 1 → ℝ) → (Fin 0 → ℝ) × (Fin 0 → Fin 1 → ℝ) :=
  fun _ => (fun l => l.elim0, fun l => l.elim0)

/-- A concrete two-sample dataset with per-feature variance `1`. -/
noncomputable def dataRowE : Fin 2 → Fin 1 → ℝ := fun i _ => if i.val = 0 then 1 else -1

lemma rowStepOf_fixed : (rowStepOf svdORowE dataRowE fun _ => 1).2.2 = (fun _ => (1 : ℝ)) := by
  funext j
  show max (colVarFn dataRowE j - ∑ l : Fin 0,
      (rowIterate svdORowE (center1 dataRowE) (colVarFn dataRowE) (fun _ => 1)).W l j ^ 2)
    SMALL = 1
  have hv : colVarFn dataRowE j = 1 := by
    simp [colVarFn, dataRowE, Fin.sum_univ_two]
  rw [hv, Fin.sum_univ_zero, sub_zero, show SMALL = (1e-12 : ℝ) from rfl,
    max_eq_left (by norm_num : (1e-12 : ℝ) ≤ 1)]

lemma rowFit_fixed_eval : rowFitSt mRowE svdORowE dataRowE
    = ({ mRowE with
          comps := some (rowStepOf svdORowE dataRowE fun _ => 1).2.1.1
          noiseVar := some fun _ => (1 : ℝ)
          loglike := some (rowStepOf svdORowE dataRowE fun _ => 1).1 }, none) := by
  have hE := emFitGo_two_fixed (rowStepOf svdORowE dataRowE) mRowE.tol (fun _ => 1)
    rowStepOf_fixed (show (0 : ℝ) < 1 by norm_num)
  unfold rowFitSt
  rw [show mRowE.maxIter = 2 from rfl, hE]
  rfl

/-- A concrete column-orientation model: `k = 0`, `tol = 1`, `maxIter = 2`. -/
noncomputable def mColE : FAcol := ⟨0, 1, 2, none, none, none⟩

/-- A concrete trivial SVD oracle for the column orientation. -/
noncomputable def svdOColE : ColMat → RDD (List ℝ) × List ℝ := fun _ => (⟨[], 0⟩, [])

/-- A concrete empty column-orientation dataset. -/
noncomputable def dataColE : ColMat := ⟨⟨[], 1⟩, 4⟩

lemma colFit_empty_eval : colFitSt mColE svdOColE dataColE
    = ({ mColE with
          comps := some ⟨⟨[], 0⟩, mColE.k⟩
          noiseVar := some ⟨⟨[], 1⟩, 1⟩
          loglike := some (colStepOf mColE.k svdOColE dataColE (colPsi0 dataColE)).1 }, none) := by
  have hE := emFitGo_two_fixed (colStepOf mColE.k svdOColE dataColE) mColE.tol
    (colPsi0 dataColE) rfl (show (0 : ℝ) < 1 by norm_num)
  unfold colFitSt
  rw [show mColE.maxIter = 2 from rfl, hE]
  rfl

end ConcreteFits

/-- Witness for C5 at concrete inputs: a successful two-sample,
one-feature row fit whose `noiseVar` entry is `1 ≥ 1e-12`, and a
successful empty column fit whose `noiseVar` entries all clear the
bound vacuously. -/
theorem fa_noise_variance_clamped_witness :
    (1e-12 : ℝ) ≤ 1 ∧ ∀ kv ∈ ([] : List (ℕ × ℝ)), (1e-12 : ℝ) ≤ kv.2 := by
  constructor
  · exact fa_noise_variance_clamped.2.2.1 2 1 0 mRowE svdORowE dataRowE (fun _ => 1)
      (by rw [rowFit_fixed_eval]) (by rw [rowFit_fixed_eval]) 0
  · exact fun kv hkv => fa_noise_variance_clamped.2.2.2 mColE svdOColE dataColE ⟨⟨[], 1⟩, 1⟩
      (by rw [colFit_empty_eval]) (by rw [colFit_empty_eval]) kv hkv

/-- C6: calling `transform` on a model that has never been successfully
fitted (`comps` and `noiseVar` unset, i.e. `None`) fails with an error,
for both orientations. -/
theorem fa_transform_unfitted_error :
    (∀ (n p k : ℕ) (m : FArow k p) (data : Fin n → Fin p → ℝ),
      m.comps = none → m.noiseVar = none →
      rowTransform m data = Except.error noneFieldMsg)
    ∧ (∀ (m : FAcol) (data : ColMat),
      m.comps = none → m.noiseVar = none →
      colTransform m data = Except.error noneFieldMsg) := by
  constructor
  · intro n p k m data hc hn
    unfold rowTransform
    rw [hc, hn]
  · intro m data hc hn
    unfold colTransform
    rw [hc, hn]

/-- Witness for C6 at concrete unfitted models of both orientations. -/
theorem fa_transform_unfitted_error_witness :
    rowTransform (n := 1) (p := 1) (k := 1) ⟨1, 10, none, none, none⟩ (fun _ _ => 0)
        = Except.error noneFieldMsg
    ∧ colTransform ⟨2, 1, 10, none, none, none⟩ ⟨⟨[], 1⟩, 3⟩
        = Except.error noneFieldMsg :=
  ⟨fa_transform_unfitted_error.1 1 1 1 _ _ rfl rfl,
    fa_transform_unfitted_error.2 _ _ rfl rfl⟩

/-- C7 does not hold of the code: in `cca.py`, the second dataset's
covariance `cov2` is divided by `n1 - 1` — the sample count of the
*first* dataset — instead of `n2 - 1`.  Evaluated at the failing input
`data2sub = [[1], [1]]` (so `n2 = 2`) with `n1 = 3`: the code's `cov2`
entry is `2 / (3 - 1) = 1`, while the covariance described by the claim
divides the same outer-product sum by `n2 - 1 = 1`, giving `2`; the two
matrices differ. -/
theorem cca_cov2_divisor_mismatch :
    ccaCov2 (m := 1) [fun _ => (1 : ℝ), fun _ => (1 : ℝ)] 3 0 0 = 1
    ∧ ccaCovSpec (m := 1) [fun _ => (1 : ℝ), fun _ => (1 : ℝ)] 0 0 = 2
    ∧ ccaCov2 (m := 1) [fun _ => (1 : ℝ), fun _ => (1 : ℝ)] 3
        ≠ ccaCovSpec (m := 1) [fun _ => (1 : ℝ), fun _ => (1 : ℝ)] := by
  have h1 : ccaCov2 (m := 1) [fun _ => (1 : ℝ), fun _ => (1 : ℝ)] 3 0 0 = 1 := by
    simp [ccaCov2, matScalarDiv, outerSelf, Matrix.add_apply, Matrix.zero_apply]
    norm_num
  have h2 : ccaCovSpec (m := 1) [fun _ => (1 : ℝ), fun _ => (1 : ℝ)] 0 0 = 2 := by
    simp [ccaCovSpec, matScalarDiv, outerSelf, Matrix.add_apply, Matrix.zero_apply]
    norm_num
  refine ⟨h1, h2, fun h => ?_⟩
  have h3 := congrFun (congrFun h (0 : Fin 1)) (0 : Fin 1)
  rw [h1, h2] at h3
  norm_num at h3

/-- C8: in the column-orientation EM loop, every per-iteration join is
immediately coalesced to the partition count of one of its inputs: the
rescaling join to the matrix's initial partition count `numPartMat`,
the loadings join to `W`'s own partition count (that of `Wpre`, its
left input), and the noise-variance join to `psi`'s initial partition
count `numPartPsi`; consequently the loop-carried `psi`'s partition
count never exceeds its initial value across iterations. -/
theorem fa_col_joins_coalesced :
    ∀ (svdO : ColMat → RDD (List ℝ) × List ℝ) (mat : ColMat) (variance : RDD ℝ)
      (llconst : ℝ) (nsamples numPartMat numPartPsi : ℕ) (psi : RDD ℝ),
      (colIterate svdO mat variance llconst nsamples
          numPartMat numPartPsi psi).scaledmat.rdd.parts ≤ numPartMat
      ∧ (colIterate svdO mat variance llconst nsamples
          numPartMat numPartPsi psi).W.parts
          ≤ (colIterate svdO mat variance llconst nsamples
              numPartMat numPartPsi psi).Wpre.parts
      ∧ (colIterate svdO mat variance llconst nsamples
          numPartMat numPartPsi psi).psiNext.parts ≤ numPartPsi
      ∧ ∀ (kk : ℕ) (data : ColMat) (i : ℕ),
          (traceState (colStepOf kk svdO data) (colPsi0 data) i).parts
            ≤ (colPsi0 data).parts := by
  intro svdO mat variance llconst nsamples numPartMat numPartPsi psi
  refine ⟨min_le_right _ _, min_le_right _ _, min_le_right _ _, ?_⟩
  intro kk data i
  cases i with
  | zero => exact le_refl _
  | succ i2 => exact min_le_right _ _

section WLength

lemma colIterate_W_length {kk : ℕ} (svdO : ColMat → RDD (List ℝ) × List ℝ)
    (Hu : ∀ M : ColMat, ∀ kv ∈ (svdO M).1.data, kv.2.length = kk)
    (Hs : ∀ M : ColMat, (svdO M).2.length = kk)
    (mat : ColMat) (variance : RDD ℝ) (llconst : ℝ)
    (nsamples numPartMat numPartPsi : ℕ) (psi : RDD ℝ) :
    ∀ kv ∈ (colIterate svdO mat variance llconst nsamples
        numPartMat numPartPsi psi).W.data, kv.2.length = kk := by
  intro kv hkv
  obtain ⟨x, hx, rfl⟩ := mem_mapValues hkv
  obtain ⟨v, hv, w, hw, rfl⟩ := mem_joinData hx
  obtain ⟨u1, hu1, rfl⟩ := mem_mapValues hv
  simp only [List.length_map, List.length_zipWith]
  rw [Hu _ _ hu1, Hs]
  exact min_self kk

end WLength

/-- C10: after a successful column-orientation fit, the distributed
`comps` and `noiseVar` results are materialized with their key-value
pairs sorted ascending by key; `comps` carries `k` values per key
(provided the SVD oracle's `u` rows have `k` entries and it returns `k`
singular values) and is wrapped with `ncols = k`, while `noiseVar`
carries one scalar value per key and is wrapped with `ncols = 1`. -/
theorem fa_col_results_sorted (m : FAcol) (svdO : ColMat → RDD (List ℝ) × List ℝ)
    (data : ColMat)
    (Hu : ∀ M : ColMat, ∀ kv ∈ (svdO M).1.data, kv.2.length = m.k)
    (Hs : ∀ M : ColMat, (svdO M).2.length = m.k)
    (hok : (colFitSt m svdO data).2 = none) :
    ∃ cm nv, (colFitSt m svdO data).1.comps = some cm
      ∧ (colFitSt m svdO data).1.noiseVar = some nv
      ∧ List.Sorted (fun x y : ℕ × List ℝ => x.1 ≤ y.1) cm.rdd.data
      ∧ (∀ kv ∈ cm.rdd.data, kv.2.length = m.k)
      ∧ cm.ncols = m.k
      ∧ List.Sorted (fun x y : ℕ × ℝ => x.1 ≤ y.1) nv.rdd.data
      ∧ nv.ncols = 1 := by
  unfold colFitSt at hok ⊢
  cases hE : emFitGo (colStepOf m.k svdO data) m.tol m.maxIter ⊥ (colPsi0 data) with
  | error e => rw [hE] at hok; exact absurd hok (by simp)
  | ok v =>
    obtain ⟨ll, Wpsi⟩ := v
    refine ⟨⟨Wpsi.1.sortByKey, m.k⟩, ⟨Wpsi.2.sortByKey, 1⟩, rfl, rfl,
      sortByKey_sorted _, ?_, rfl, sortByKey_sorted _, rfl⟩
    intro kv hkv
    have hkv2 := mem_sortByKey.1 hkv
    have hQ := emFitGo_ok_prop (colStepOf m.k svdO data) m.tol (fun _ => True)
      (fun r => ∀ kv2 ∈ r.2.1.data, kv2.2.length = m.k)
      (fun _ _ => trivial)
      (fun st _ => colIterate_W_length svdO Hu Hs (centerCol data) (colVarianceOf data)
        (colLLconst m.k data) (centerCol data).ncols (centerCol data).rdd.parts
        (colPsi0 data).parts st)
      m.maxIter ⊥ (colPsi0 data) (ll, Wpsi) trivial hE
    exact hQ kv hkv2

/-- Witness for C10 at a concrete successful empty column fit with
`k = 0`. -/
theorem fa_col_results_sorted_witness :
    ∃ cm nv, (colFitSt mColE svdOColE dataColE).1.comps = some cm
      ∧ (colFitSt mColE svdOColE dataColE).1.noiseVar = some nv
      ∧ List.Sorted (fun x y : ℕ × List ℝ => x.1 ≤ y.1) cm.rdd.data
      ∧ (∀ kv ∈ cm.rdd.data, kv.2.length = mColE.k)
      ∧ cm.ncols = mColE.k
      ∧ List.Sorted (fun x y : ℕ × ℝ => x.1 ≤ y.1) nv.rdd.data
      ∧ nv.ncols = 1 :=
  fa_col_results_sorted mColE svdOColE dataColE
    (fun _ kv hkv => absurd hkv (List.not_mem_nil kv))
    (fun _ => rfl)
    (by rw [colFit_empty_eval])

end Thunder
